import Mathlib

/-!
Shallow embedding of the svdmap plugin (src/__init__.py, function import_svd).

The program walks an SVD device description and, for each peripheral and
register, builds structure/union type layouts and address reservations in a
host binary view.  The layout container (StructureBuilder) and its member
operations come from the host API, which is not part of this repository; its
lookup/insert behaviour is modelled below from the specification's words
(section 4.1) where the spec describes it, and from the host API contract
(insert's overwrite flag defaults to overwriting) where the source makes the
default explicit by passing the flag only at some call sites.

Machine integers: all SVD quantities are Python ints (arbitrary precision);
bit indices and sizes are non-negative, so they are embedded as Nat, except
the address-block span accumulator, which can go negative on unordered
blocks and is embedded as Int.
-/

namespace SvdMap

/-- Constant BYTE_SIZE from the source (line 7). -/
def BYTE_SIZE : Nat := 8

/-- Member of a synthesized bitfield union: StructureMember(bitfield_ty, field_name,
field_bounds[0]) at source line 65.  In import_svd the type stored in a union member
is always a plain unsigned int, so only its byte width is kept. -/
structure UMember where
  name : String
  width : Nat
  offset : Nat
deriving DecidableEq, Repr

/-- Types inserted into layouts by import_svd: Type.int(w, False), Type.union(members),
and named register structure types (only their width is observable downstream). -/
inductive BNType where
  | int (width : Nat)
  | union (members : List UMember)
  | structRef (width : Nat)
deriving DecidableEq, Repr

/-- Byte width of a type: ints carry their width; a union is as wide as the furthest
byte any member reaches; a structure reference carries its width. -/
def BNType.width : BNType → Nat
  | .int w => w
  | .union ms => ms.foldl (fun a m => max a (m.offset + m.width)) 0
  | .structRef w => w

/-- Member of a structure layout: name, type and byte offset. -/
structure SMember where
  name : String
  ty : BNType
  offset : Nat
deriving DecidableEq, Repr

/-- StructureBuilder state: the width passed at creation and the members inserted so
far, in insertion order. -/
structure RegStruct where
  initWidth : Nat
  members : List SMember
deriving DecidableEq, Repr

/-- Modelled from the spec: the layout lookup used at source line 67
(member_at_offset).  Section 4.1 reads "Look up any existing layout member already
occupying that exact byte offset", so the lookup matches on the exact byte offset. -/
def memberAtOffset (st : RegStruct) (o : Nat) : Option SMember :=
  st.members.find? (fun m => m.offset == o)

/-- Modelled from the spec and the host API contract: StructureBuilder.insert.  The
host API's overwrite flag defaults to true (the source passes overwrite_existing=False
explicitly at lines 69 and 84 and omits it at lines 54 and 74).  With overwrite, the
member at that exact byte offset is replaced; without, an occupied offset leaves the
layout unchanged (the spec, sections 4.1 and 4.3, reads "first writer wins at a given
offset (no overwrite)"). -/
def RegStruct.insert (st : RegStruct) (o : Nat) (ty : BNType) (name : String)
    (overwrite : Bool) : RegStruct :=
  if overwrite then
    { st with members := st.members.filter (fun m => m.offset != o) ++ [⟨name, ty, o⟩] }
  else if (st.members.find? (fun m => m.offset == o)).isSome then st
  else { st with members := st.members ++ [⟨name, ty, o⟩] }

/-- Width of the built structure: at least the creation width, grown to the furthest
byte reached by any member. -/
def RegStruct.width (st : RegStruct) : Nat :=
  st.members.foldl (fun a m => max a (m.offset + m.ty.width)) st.initWidth

/-- Field record from the parsed SVD document: name, lsb, msb (source lines 43-45). -/
structure Field where
  name : String
  lsb : Nat
  msb : Nat
deriving DecidableEq, Repr

/-- Value math.ceil(n / 8) for a non-negative integer n. -/
def ceilDiv8 (n : Nat) : Nat := (n + 7) / BYTE_SIZE

/-- Bitfield union member built at source lines 59-65: width (ceil(msb/8) + 1) -
floor(lsb/8) bytes, member offset floor(lsb/8). -/
def bitfieldMember (f : Field) : UMember :=
  ⟨f.name, (ceilDiv8 f.msb + 1) - f.lsb / BYTE_SIZE, f.lsb / BYTE_SIZE⟩

/-- Comment side channel: the sequence of set_comment_at(addr, text) calls. -/
abbrev Comments := List (Nat × String)

/-- Field loop body, source lines 42-74.  The state is the register layout together
with the comment side channel.  field_lsb/8 and field_msb/8 are exact (is_integer)
precisely when the bit index is divisible by 8; in that case a plain int of
(msb/8 + 1) - lsb/8 bytes is inserted at offset lsb/8 with the overwriting default.
Otherwise, when bitfield structuring is on, a union member is created or appended as
in lines 59-74, with a comment at reg_addr + floor(lsb/8) when comments are on. -/
def processField (structureBitfields showComments : Bool) (regAddr : Nat)
    (st : RegStruct × Comments) (f : Field) : RegStruct × Comments :=
  if f.lsb % BYTE_SIZE = 0 ∧ f.msb % BYTE_SIZE = 0 then
    (st.1.insert (f.lsb / BYTE_SIZE)
      (.int ((f.msb / BYTE_SIZE + 1) - f.lsb / BYTE_SIZE)) f.name true, st.2)
  else if structureBitfields then
    let lo := f.lsb / BYTE_SIZE
    let fieldAddr := regAddr + lo
    let cs := if showComments
      then st.2 ++ [(fieldAddr,
        f.name ++ " " ++ toString f.msb ++ ":" ++ toString f.lsb)]
      else st.2
    match memberAtOffset st.1 lo with
    | none => (st.1.insert lo (.union [bitfieldMember f]) "" false, cs)
    | some m =>
      match m.ty with
      | .union ms => (st.1.insert m.offset (.union (ms ++ [bitfieldMember f])) "" true, cs)
      | _ => (st.1, cs)
  else st

/-- Python str.splitlines restricted to newline-terminated lines: the empty string
yields no lines, a trailing line break yields no trailing empty line.  Descriptions
are embedded as character lists so the function is structurally recursive. -/
def pySplitlines : List Char → List (List Char)
  | [] => []
  | c :: cs =>
    if c = '\n' then [] :: pySplitlines cs
    else
      match pySplitlines cs with
      | [] => [[c]]
      | l :: ls => (c :: l) :: ls

/-- Python runtime errors surfaced by import_svd. -/
inductive PyError
  | indexError
deriving DecidableEq, Repr

/-- Register record from the parsed SVD document (source lines 33-41). -/
structure Register where
  name : String
  description : List Char
  addressOffset : Nat
  size : Nat
  fields : List Field
deriving DecidableEq, Repr

/-- Register compilation, source lines 33-82: truncate the bit size to bytes with
int(reg_size / 8), build the layout by folding the field loop, then (when comments
are on) annotate reg_addr with the first line of the description — which raises
IndexError on an empty description because splitlines() is then the empty list.
Returns the finished layout and the comment side channel. -/
def compileRegister (structureBitfields showComments : Bool) (perBaseAddr : Nat)
    (reg : Register) : Except PyError (RegStruct × Comments) :=
  let regSizeB := reg.size / BYTE_SIZE
  let regAddr := perBaseAddr + reg.addressOffset
  let st := reg.fields.foldl (processField structureBitfields showComments regAddr)
    (⟨regSizeB, []⟩, [])
  if showComments then
    match pySplitlines reg.description with
    | [] => .error .indexError
    | l :: _ => .ok (st.1, st.2 ++ [(regAddr, String.mk l)])
  else .ok st

/-- Address block record: offset and size (source lines 91-92).  Int, because the
span recurrence subtracts the running total. -/
structure AddressBlock where
  offset : Int
  size : Int
deriving DecidableEq, Repr

/-- Peripheral span accumulation, source lines 88-93: starting from 0, every block
adds (block.offset - running_total) + block.size to the running total. -/
def accumulateSpan (blocks : List AddressBlock) : Int :=
  blocks.foldl (fun s b => s + (b.offset - s) + b.size) 0

/-- Final peripheral size, source lines 95-97: when the accumulated span is smaller
than the peripheral structure width, the size becomes that width and a warning is
logged (the Bool records whether the warning fired). -/
def planPeripheralSize (span : Int) (structWidth : Nat) : Int × Bool :=
  if span < (structWidth : Int) then ((structWidth : Int), true) else (span, false)

/-- Peripheral record from the parsed SVD document (source lines 26-31, 89). -/
structure Peripheral where
  name : String
  description : List Char
  baseAddress : Nat
  addressBlocks : List AddressBlock
  registers : List Register
deriving DecidableEq, Repr

/-- Peripheral compilation, source lines 25-102: compile every register in document
order, insert each register type into the peripheral layout at its address offset
with overwrite_existing=False (line 84), then accumulate the block span and widen it
to the structure width if needed.  Returns the peripheral layout, the final size,
whether the undersize warning fired, and the comments. -/
def compilePeripheral (structureBitfields showComments : Bool) (per : Peripheral) :
    Except PyError (RegStruct × Int × Bool × Comments) := do
  let res ← per.registers.foldlM (m := Except PyError)
    (fun (acc : RegStruct × Comments) reg => do
      let r ← compileRegister structureBitfields showComments per.baseAddress reg
      let regTy : BNType := .structRef r.1.width
      pure (acc.1.insert reg.addressOffset regTy reg.name false, acc.2 ++ r.2))
    (⟨0, []⟩, [])
  let span := accumulateSpan per.addressBlocks
  let sized := planPeripheralSize span res.1.width
  pure (res.1, sized.1, sized.2, res.2)

/-! Helper lemmas about the layout model. -/

/-- Looking for an offset in a list from which that offset has been filtered out,
followed by a member carrying the offset, finds that member. -/
theorem find?_offset_filter_append (l : List SMember) (x : SMember) (o : Nat)
    (hx : x.offset = o) :
    ((l.filter (fun m => m.offset != o)) ++ [x]).find? (fun m => m.offset == o) =
      some x := by
  induction l with
  | nil => simp [List.find?, hx]
  | cons y ys ih =>
    by_cases hy : y.offset = o
    · simpa [List.filter_cons, hy] using ih
    · simpa [List.filter_cons, hy, List.find?_cons, hy] using ih

/-- Appending a member carrying an offset that the list does not contain makes the
offset lookup find exactly that member. -/
theorem find?_offset_append_of_none (l : List SMember) (x : SMember) (o : Nat)
    (hl : l.find? (fun m => m.offset == o) = none) (hx : x.offset = o) :
    (l ++ [x]).find? (fun m => m.offset == o) = some x := by
  induction l with
  | nil => simp [List.find?, hx]
  | cons y ys ih =>
    cases hy : (y.offset == o) with
    | true => simp [List.find?_cons, hy] at hl
    | false =>
      simp only [List.cons_append, List.find?_cons, hy] at hl ⊢
      exact ih hl

/-- Characterization of the field loop on a byte-aligned field (both bit indices
divisible by 8): the plain integer field is inserted with the overwriting default
and the comment channel is untouched. -/
theorem processField_aligned (sb sc : Bool) (a : Nat) (rs : RegStruct) (cs : Comments)
    (f : Field) (h1 : f.lsb % BYTE_SIZE = 0) (h2 : f.msb % BYTE_SIZE = 0) :
    processField sb sc a (rs, cs) f =
      (rs.insert (f.lsb / BYTE_SIZE)
        (.int ((f.msb / BYTE_SIZE + 1) - f.lsb / BYTE_SIZE)) f.name true, cs) := by
  simp [processField, h1, h2]

/-- Comment text produced for a misaligned field at source line 62. -/
def fieldComment (f : Field) : String :=
  f.name ++ " " ++ toString f.msb ++ ":" ++ toString f.lsb

/-- Characterization of the field loop on a misaligned field when no member sits at
the floor byte offset: a fresh single-member union is appended there. -/
theorem processField_fresh (sc : Bool) (a : Nat) (rs : RegStruct) (cs : Comments)
    (f : Field) (h : ¬ (f.lsb % BYTE_SIZE = 0 ∧ f.msb % BYTE_SIZE = 0))
    (hfree : memberAtOffset rs (f.lsb / BYTE_SIZE) = none) :
    processField true sc a (rs, cs) f =
      ({ rs with members := rs.members ++
          [⟨"", .union [bitfieldMember f], f.lsb / BYTE_SIZE⟩] },
       if sc then cs ++ [(a + f.lsb / BYTE_SIZE, fieldComment f)] else cs) := by
  rw [processField, if_neg h, if_pos rfl]
  unfold memberAtOffset at hfree
  simp only [hfree, RegStruct.insert, memberAtOffset, fieldComment]
  simp [hfree]

/-- Characterization of the field loop on a misaligned field when the floor byte
offset already holds a union: the new bitfield member is appended to that union and
the union is re-inserted, replacing the old entry. -/
theorem processField_union_append (sc : Bool) (a : Nat) (rs : RegStruct) (cs : Comments)
    (f : Field) (h : ¬ (f.lsb % BYTE_SIZE = 0 ∧ f.msb % BYTE_SIZE = 0))
    (m : SMember) (ms : List UMember)
    (hm : memberAtOffset rs (f.lsb / BYTE_SIZE) = some m) (hty : m.ty = .union ms) :
    processField true sc a (rs, cs) f =
      ({ rs with members :=
          rs.members.filter (fun x => x.offset != f.lsb / BYTE_SIZE) ++
          [⟨"", .union (ms ++ [bitfieldMember f]), f.lsb / BYTE_SIZE⟩] },
       if sc then cs ++ [(a + f.lsb / BYTE_SIZE, fieldComment f)] else cs) := by
  have hoff : m.offset = f.lsb / BYTE_SIZE := by
    have := List.find?_some hm
    simpa using this
  rw [processField, if_neg h, if_pos rfl]
  simp only [hm, hty, RegStruct.insert, hoff, fieldComment]
  simp

/-! Claim theorems. -/

/-- C1: the code decides byte alignment with msb % 8 == 0 instead of (msb+1) % 8 == 0,
so the field lsb=0, msb=7 of a 32-bit register never becomes a plain 1-byte integer
field at offset 0: with structuring disabled the layout is left untouched (the field
is dropped), and with structuring enabled it becomes a 2-byte bitfield union. -/
theorem c1_field_0_7_not_plain :
    processField false false 0 (⟨4, []⟩, []) ⟨"F", 0, 7⟩ = (⟨4, []⟩, []) ∧
    (processField true false 0 (⟨4, []⟩, []) ⟨"F", 0, 7⟩).1.members =
      [⟨"", .union [⟨"F", 2, 0⟩], 0⟩] := by
  exact ⟨rfl, rfl⟩

/-- C2: a register declaring 12 bits of width is not rejected: the width is truncated
with int(12 / 8) = 1 and register compilation completes normally, emitting a 1-byte
partial type instead of aborting with an InvalidRegisterWidth error. -/
theorem c2_width_12_truncated :
    compileRegister false false 0 ⟨"R", [], 0, 12, []⟩ = .ok (⟨1, []⟩, []) := by
  exact rfl

/-- C3 counterexample: two byte-aligned fields A then B, both at bits 0..0 of a
32-bit register.  The final layout holds only B at offset 0: the earlier field A was
overwritten, so the claim that the earlier entry is kept and the later field dropped
is false. -/
theorem c3_counterexample :
    (processField false false 0
        (processField false false 0 (⟨4, []⟩, []) ⟨"A", 0, 0⟩) ⟨"B", 0, 0⟩).1.members =
      [⟨"B", .int 1, 0⟩] ∧
    ¬ (processField false false 0
        (processField false false 0 (⟨4, []⟩, []) ⟨"A", 0, 0⟩) ⟨"B", 0, 0⟩).1.members =
      [⟨"A", .int 1, 0⟩] := by
  exact ⟨rfl, by decide⟩

/-- C3 amended: the byte-aligned insert at source line 54 uses the overwriting
default, so the LAST writer wins at each byte offset: after processing a byte-aligned
field, the member found at its byte offset is that field, members at other offsets
are preserved, and the comment channel is untouched. -/
theorem c3_last_writer_wins (sb sc : Bool) (a : Nat) (rs : RegStruct) (cs : Comments)
    (f : Field) (h1 : f.lsb % BYTE_SIZE = 0) (h2 : f.msb % BYTE_SIZE = 0) :
    memberAtOffset (processField sb sc a (rs, cs) f).1 (f.lsb / BYTE_SIZE) =
      some ⟨f.name, .int ((f.msb / BYTE_SIZE + 1) - f.lsb / BYTE_SIZE),
        f.lsb / BYTE_SIZE⟩ ∧
    (∀ m ∈ rs.members, m.offset ≠ f.lsb / BYTE_SIZE →
      m ∈ (processField sb sc a (rs, cs) f).1.members) ∧
    (processField sb sc a (rs, cs) f).2 = cs := by
  rw [processField_aligned sb sc a rs cs f h1 h2]
  refine ⟨?_, ?_, rfl⟩
  · unfold memberAtOffset RegStruct.insert
    simp only [if_pos rfl]
    exact find?_offset_filter_append rs.members _ (f.lsb / BYTE_SIZE) rfl
  · intro m hm hne
    unfold RegStruct.insert
    simp only [if_pos rfl]
    exact List.mem_append_left _ (List.mem_filter.mpr ⟨hm, by simpa using hne⟩)

/-- C3 witness: the amended behavior at the concrete overwrite scenario. -/
theorem c3_last_writer_wins_witness :
    (0 : Nat) % BYTE_SIZE = 0 ∧
    memberAtOffset
      (processField false false 0 (⟨4, [⟨"A", BNType.int 1, 0⟩]⟩, []) ⟨"B", 0, 0⟩).1 0 =
      some ⟨"B", BNType.int 1, 0⟩ :=
  ⟨by decide,
   (c3_last_writer_wins false false 0 ⟨4, [⟨"A", BNType.int 1, 0⟩]⟩ [] ⟨"B", 0, 0⟩
     (by decide) (by decide)).1⟩

/-- C4: a field that is not byte-aligned produces nothing when bitfield structuring
is disabled: the register layout and the comment channel are exactly as before. -/
theorem c4_misaligned_dropped_when_disabled (sc : Bool) (a : Nat)
    (st : RegStruct × Comments) (f : Field)
    (h : ¬ (f.lsb % BYTE_SIZE = 0 ∧ f.msb % BYTE_SIZE = 0)) :
    processField false sc a st f = st := by
  simp [processField, h]

/-- C4 witness: the field at bits 3..5 with structuring disabled and comments enabled
leaves an empty 32-bit register layout and comment channel unchanged. -/
theorem c4_misaligned_dropped_witness :
    ¬ ((3 : Nat) % BYTE_SIZE = 0 ∧ (5 : Nat) % BYTE_SIZE = 0) ∧
    processField false true 0x40000000 (⟨4, []⟩, []) ⟨"f", 3, 5⟩ = (⟨4, []⟩, []) :=
  ⟨by decide,
   c4_misaligned_dropped_when_disabled true 0x40000000 (⟨4, []⟩, []) ⟨"f", 3, 5⟩
     (by decide)⟩

/-- C5 counterexample: for the misaligned field at bits 3..5 with structuring on, the
synthesized union member is 2 bytes wide, whereas ceil(msb/8) - floor(lsb/8) =
ceil(5/8) - floor(3/8) = 1: the claimed width formula is off by one. -/
theorem c5_counterexample :
    (processField true false 0 (⟨4, []⟩, []) ⟨"f", 3, 5⟩).1.members =
      [⟨"", .union [⟨"f", 2, 0⟩], 0⟩] ∧
    ¬ ((2 : Nat) = ceilDiv8 5 - 3 / BYTE_SIZE) := by
  exact ⟨rfl, by decide⟩

/-- C5 amended: for a misaligned field, with structuring on and the floor byte offset
still free, the layout gains at byte offset floor(lsb/8) a union whose member is
(ceil(msb/8) + 1) - floor(lsb/8) bytes wide — one byte more than the claimed
ceil(msb/8) - floor(lsb/8). -/
theorem c5_bitfield_bounds (sc : Bool) (a : Nat) (rs : RegStruct) (cs : Comments)
    (f : Field) (h : ¬ (f.lsb % BYTE_SIZE = 0 ∧ f.msb % BYTE_SIZE = 0))
    (hfree : memberAtOffset rs (f.lsb / BYTE_SIZE) = none) :
    memberAtOffset (processField true sc a (rs, cs) f).1 (f.lsb / BYTE_SIZE) =
      some ⟨"", .union [⟨f.name, (ceilDiv8 f.msb + 1) - f.lsb / BYTE_SIZE,
        f.lsb / BYTE_SIZE⟩], f.lsb / BYTE_SIZE⟩ := by
  rw [processField_fresh sc a rs cs f h hfree]
  unfold memberAtOffset at hfree ⊢
  exact find?_offset_append_of_none rs.members _ (f.lsb / BYTE_SIZE) hfree rfl

/-- C5 witness: the amended bounds at the concrete field bits 3..5 over an empty
32-bit register layout. -/
theorem c5_bitfield_bounds_witness :
    (¬ ((3 : Nat) % BYTE_SIZE = 0 ∧ (5 : Nat) % BYTE_SIZE = 0)) ∧
    memberAtOffset (⟨4, []⟩ : RegStruct) 0 = none ∧
    memberAtOffset (processField true false 0 (⟨4, []⟩, []) ⟨"f", 3, 5⟩).1 0 =
      some ⟨"", .union [⟨"f", 2, 0⟩], 0⟩ :=
  ⟨by decide, by decide,
   c5_bitfield_bounds false 0 ⟨4, []⟩ [] ⟨"f", 3, 5⟩ (by decide) (by decide)⟩

/-- C6: with structuring on, two misaligned fields processed in order over a fresh
register layout merge into a single union, in encounter order, exactly when their
floor byte offsets coincide; with distinct floor offsets each gets its own union at
its own floor offset. -/
theorem c6_union_merging (sc : Bool) (a w : Nat) (cs : Comments) (f1 f2 : Field)
    (h1 : ¬ (f1.lsb % BYTE_SIZE = 0 ∧ f1.msb % BYTE_SIZE = 0))
    (h2 : ¬ (f2.lsb % BYTE_SIZE = 0 ∧ f2.msb % BYTE_SIZE = 0)) :
    (f1.lsb / BYTE_SIZE = f2.lsb / BYTE_SIZE →
      (processField true sc a (processField true sc a (⟨w, []⟩, cs) f1) f2).1.members =
        [⟨"", .union [bitfieldMember f1, bitfieldMember f2], f1.lsb / BYTE_SIZE⟩]) ∧
    (f1.lsb / BYTE_SIZE ≠ f2.lsb / BYTE_SIZE →
      (processField true sc a (processField true sc a (⟨w, []⟩, cs) f1) f2).1.members =
        [⟨"", .union [bitfieldMember f1], f1.lsb / BYTE_SIZE⟩,
         ⟨"", .union [bitfieldMember f2], f2.lsb / BYTE_SIZE⟩]) := by
  have hstep1 : processField true sc a (⟨w, []⟩, cs) f1 =
      (⟨w, [⟨"", .union [bitfieldMember f1], f1.lsb / BYTE_SIZE⟩]⟩,
       if sc then cs ++ [(a + f1.lsb / BYTE_SIZE, fieldComment f1)] else cs) := by
    rw [processField_fresh sc a ⟨w, []⟩ cs f1 h1 rfl]
    rfl
  constructor
  · intro hEq
    have hfind : memberAtOffset
        (⟨w, [⟨"", .union [bitfieldMember f1], f1.lsb / BYTE_SIZE⟩]⟩ : RegStruct)
        (f2.lsb / BYTE_SIZE) =
        some ⟨"", .union [bitfieldMember f1], f1.lsb / BYTE_SIZE⟩ := by
      simp [memberAtOffset, List.find?_cons, hEq]
    rw [hstep1, processField_union_append sc a _ _ f2 h2
      ⟨"", .union [bitfieldMember f1], f1.lsb / BYTE_SIZE⟩ [bitfieldMember f1]
      hfind rfl]
    simp [hEq]
  · intro hNe
    have hfind : memberAtOffset
        (⟨w, [⟨"", .union [bitfieldMember f1], f1.lsb / BYTE_SIZE⟩]⟩ : RegStruct)
        (f2.lsb / BYTE_SIZE) = none := by
      simp [memberAtOffset, List.find?_cons, hNe]
    rw [hstep1, processField_fresh sc a _ _ f2 h2 hfind]
    rfl

/-- C6 witness: scenario B, fields at bits 3..5 and 10..10 of a 32-bit register with
structuring on, yields one union at byte offset 0 and a separate union at byte
offset 1. -/
theorem c6_union_merging_witness :
    (¬ ((3 : Nat) % BYTE_SIZE = 0 ∧ (5 : Nat) % BYTE_SIZE = 0)) ∧
    (¬ ((10 : Nat) % BYTE_SIZE = 0 ∧ (10 : Nat) % BYTE_SIZE = 0)) ∧
    (3 : Nat) / BYTE_SIZE ≠ 10 / BYTE_SIZE ∧
    (processField true false 0
        (processField true false 0 (⟨4, []⟩, []) ⟨"f1", 3, 5⟩) ⟨"f2", 10, 10⟩).1.members =
      [⟨"", .union [bitfieldMember ⟨"f1", 3, 5⟩], 0⟩,
       ⟨"", .union [bitfieldMember ⟨"f2", 10, 10⟩], 1⟩] :=
  ⟨by decide, by decide, by decide,
   (c6_union_merging false 0 4 [] ⟨"f1", 3, 5⟩ ⟨"f2", 10, 10⟩
     (by decide) (by decide)).2 (by decide)⟩

/-- C10: with structuring on, a bitfield member enters its union with intra-union
offset floor(lsb/8) — the register-relative byte offset — both when a fresh union is
created at that offset and when it is appended to an existing union there; the union
itself also sits at floor(lsb/8), so a union at a nonzero register offset starts with
that many bytes of padding before its member. -/
theorem c10_member_offset_is_floor (sc : Bool) (a : Nat) (rs : RegStruct)
    (cs : Comments) (f : Field)
    (h : ¬ (f.lsb % BYTE_SIZE = 0 ∧ f.msb % BYTE_SIZE = 0)) :
    (memberAtOffset rs (f.lsb / BYTE_SIZE) = none →
      (processField true sc a (rs, cs) f).1.members = rs.members ++
        [⟨"", .union [⟨f.name, (ceilDiv8 f.msb + 1) - f.lsb / BYTE_SIZE,
          f.lsb / BYTE_SIZE⟩], f.lsb / BYTE_SIZE⟩]) ∧
    (∀ m ms, memberAtOffset rs (f.lsb / BYTE_SIZE) = some m → m.ty = .union ms →
      (processField true sc a (rs, cs) f).1.members =
        rs.members.filter (fun x => x.offset != f.lsb / BYTE_SIZE) ++
        [⟨"", .union (ms ++ [⟨f.name, (ceilDiv8 f.msb + 1) - f.lsb / BYTE_SIZE,
          f.lsb / BYTE_SIZE⟩]), f.lsb / BYTE_SIZE⟩]) := by
  constructor
  · intro hfree
    rw [processField_fresh sc a rs cs f h hfree]
    rfl
  · intro m ms hm hty
    rw [processField_union_append sc a rs cs f h m ms hm hty]
    rfl

/-- C10 witness: the field at bits 10..10 over an empty layout yields a union at byte
offset 1 whose sole member has intra-union offset 1 (one byte of leading padding),
not 0. -/
theorem c10_member_offset_witness :
    (¬ ((10 : Nat) % BYTE_SIZE = 0 ∧ (10 : Nat) % BYTE_SIZE = 0)) ∧
    memberAtOffset (⟨4, []⟩ : RegStruct) 1 = none ∧
    (processField true false 0 (⟨4, []⟩, []) ⟨"g", 10, 10⟩).1.members =
      [⟨"", .union [⟨"g", 2, 1⟩], 1⟩] :=
  ⟨by decide, by decide,
   (c10_member_offset_is_floor false 0 ⟨4, []⟩ [] ⟨"g", 10, 10⟩ (by decide)).1
     (by decide)⟩

/-- C7: the peripheral span walks the address blocks in document order, each block
adding (block.offset - running_total) + block.size to the running total; for the
blocks (offset 0, size 0x100) and (offset 0x200, size 0x10) the span is 0x210. -/
theorem c7_span_accumulation :
    accumulateSpan [⟨0, 0x100⟩, ⟨0x200, 0x10⟩] = 0x210 ∧
    ∀ (bs : List AddressBlock) (b : AddressBlock),
      accumulateSpan (bs ++ [b]) =
        accumulateSpan bs + (b.offset - accumulateSpan bs) + b.size := by
  refine ⟨by decide, ?_⟩
  intro bs b
  simp [accumulateSpan, List.foldl_append]

/-- C8: the reserved peripheral size is never below the derived structure width; when
the accumulated block span is smaller, the size becomes the structure width and the
warning fires, as in the scenario span 0x210 versus width 0x300. -/
theorem c8_size_never_below_width (span : Int) (w : Nat) :
    (w : Int) ≤ (planPeripheralSize span w).1 ∧
    (span < (w : Int) → planPeripheralSize span w = ((w : Int), true)) ∧
    planPeripheralSize 0x210 0x300 = (0x300, true) := by
  refine ⟨?_, ?_, by decide⟩
  · unfold planPeripheralSize
    split <;> omega
  · intro hlt
    simp [planPeripheralSize, hlt]

/-- C8 witness: the widening branch at the concrete scenario values. -/
theorem c8_size_never_below_width_witness :
    (0x210 : Int) < ((0x300 : Nat) : Int) ∧
    planPeripheralSize 0x210 0x300 = (((0x300 : Nat) : Int), true) :=
  ⟨by decide, (c8_size_never_below_width 0x210 0x300).2.1 (by decide)⟩

/-- Helper: splitlines of a nonempty string is a nonempty line list. -/
theorem pySplitlines_ne_nil (cs : List Char) (h : cs ≠ []) : pySplitlines cs ≠ [] := by
  match cs with
  | [] => exact absurd rfl h
  | c :: cs =>
    rw [pySplitlines]
    split
    · exact List.cons_ne_nil _ _
    · split <;> exact List.cons_ne_nil _ _

/-- C9: with comment emission enabled, a register whose description is the empty
string makes the pass index the head of the empty splitlines list and abort with an
IndexError; any register whose description is nonempty gets past the annotation. -/
theorem c9_empty_description_aborts (sb : Bool) (base : Nat) (reg : Register) :
    (reg.description = [] →
      compileRegister sb true base reg = .error .indexError) ∧
    (reg.description ≠ [] →
      ∃ v, compileRegister sb true base reg = .ok v) := by
  constructor
  · intro hdesc
    rw [compileRegister, hdesc]
    rfl
  · intro hdesc
    rw [compileRegister]
    have hne := pySplitlines_ne_nil reg.description hdesc
    simp only [if_pos rfl]
    match hsp : pySplitlines reg.description with
    | [] => exact absurd hsp hne
    | l :: ls => exact ⟨_, rfl⟩

/-- C9 witness: the abort at a concrete register with an empty description, and the
success at the same register with the description "hi". -/
theorem c9_empty_description_witness :
    ([] : List Char) = [] ∧
    compileRegister false true 0 ⟨"R", [], 4, 32, []⟩ = .error .indexError ∧
    (['h', 'i'] : List Char) ≠ [] ∧
    ∃ v, compileRegister false true 0 ⟨"R", ['h', 'i'], 4, 32, []⟩ = .ok v :=
  ⟨rfl,
   (c9_empty_description_aborts false 0 ⟨"R", [], 4, 32, []⟩).1 rfl,
   by decide,
   (c9_empty_description_aborts false 0 ⟨"R", ['h', 'i'], 4, 32, []⟩).2 (by decide)⟩

end SvdMap
